import Mathlib

set_option allowUnsafeReducibility true
attribute [local semireducible] Rat.add Rat.mul Rat.inv Rat.sub Rat.div Rat.ofScientific

/-!
Shallow embedding of the "Focus Royale" attention-scoring and settlement
pipeline (signal smoother, adaptive cadence controller, penalty accumulator,
settlement computer) of the hack-western repository.  JavaScript numbers are
modelled as rationals, millisecond timestamps as naturals, and the mutable
module-level state of the TypeScript services as explicit state records.
-/

/-- The fixed label vocabulary of types.ts (type DistractionType). -/
inductive DistractionType where
  | NONE
  | PHONE
  | NO_FACE
  | EYES_CLOSED
  | TALKING
  | EATING
  deriving DecidableEq, Repr

/-- Participant record (interface Player in types.ts); the status union type
is modelled as a plain string as in the source. -/
structure Player where
  id : String
  name : String
  isSelf : Bool
  health : ℚ
  flowScore : ℚ
  avatar : String
  status : String
  heartRate : ℚ
  deriving DecidableEq, Repr

/-- Assignment into a JavaScript record (distribution[key] = v): overwrite the
existing entry for the key, or append a fresh entry in insertion order. -/
def recordSet (r : List (String × ℚ)) (k : String) (v : ℚ) : List (String × ℚ) :=
  if r.any (fun e => e.1 = k) then
    r.map (fun e => if e.1 = k then (k, v) else e)
  else
    r ++ [(k, v)]

/-- Record lookup with the || 0 default used on penaltyByPlayer. -/
def recordGet (r : List (String × ℚ)) (k : String) : ℚ :=
  (((r.find? (fun e => e.1 = k))).map Prod.snd).getD 0

/-- Math.max over a spread list, as used on the nonempty player list. -/
def listMax : List ℚ → ℚ
  | [] => 0
  | x :: xs => xs.foldl max x

/-- topScore = Math.max(...finalPlayers.map(p => p.flowScore)). -/
def topScoreOf (finalPlayers : List Player) : ℚ :=
  listMax (finalPlayers.map Player.flowScore)

/-- winners = finalPlayers.filter(p => p.flowScore === topScore). -/
def winnersOf (finalPlayers : List Player) : List Player :=
  finalPlayers.filter (fun p => p.flowScore = topScoreOf finalPlayers)

/-- totalPenaltyPool = finalPlayers.reduce((sum, p) =>
sum + Math.min(perPlayerStake, penaltyByPlayer[p.id] || 0), 0).
The penalty record is modelled as a total function String → ℚ that already
carries the || 0 default for missing ids. -/
def totalPenaltyPoolOf (finalPlayers : List Player) (perPlayerStake : ℚ)
    (penaltyByPlayer : String → ℚ) : ℚ :=
  finalPlayers.foldl (fun sum p => sum + min perPlayerStake (penaltyByPlayer p.id)) 0

/-- bonusPerWinner = winners.length > 0 ? totalPenaltyPool / winners.length : 0. -/
def bonusPerWinnerOf (finalPlayers : List Player) (perPlayerStake : ℚ)
    (penaltyByPlayer : String → ℚ) : ℚ :=
  if 0 < (winnersOf finalPlayers).length then
    totalPenaltyPoolOf finalPlayers perPlayerStake penaltyByPlayer /
      ((winnersOf finalPlayers).length : ℚ)
  else 0

/-- The loop body of computePayoutsFromPenalties: lost, base and bonus for one
player. -/
def payoutOf (finalPlayers : List Player) (perPlayerStake : ℚ)
    (penaltyByPlayer : String → ℚ) (p : Player) : ℚ :=
  let lost := min perPlayerStake (penaltyByPlayer p.id)
  let base := max 0 (perPlayerStake - lost)
  let bonus :=
    if (winnersOf finalPlayers).any (fun w => w.id = p.id) then
      bonusPerWinnerOf finalPlayers perPlayerStake penaltyByPlayer
    else 0
  base + bonus

/-- computePayoutsFromPenalties from the session component: simulated payouts
from accumulated distracted-time penalties.  Returns the distribution record;
an empty participant list yields the empty record. -/
def computePayoutsFromPenalties (finalPlayers : List Player) (perPlayerStake : ℚ)
    (penaltyByPlayer : String → ℚ) : List (String × ℚ) :=
  match finalPlayers with
  | [] => []
  | _ :: _ =>
    finalPlayers.foldl
      (fun distribution p =>
        recordSet distribution p.id (payoutOf finalPlayers perPlayerStake penaltyByPlayer p))
      []

lemma foldl_add_eq_sum (f : Player → ℚ) :
    ∀ (l : List Player) (c : ℚ), l.foldl (fun s p => s + f p) c = c + (l.map f).sum := by
  intro l
  induction l with
  | nil => intro c; simp
  | cons p ps ih => intro c; simp [ih]; ring

lemma totalPenaltyPool_eq_sum (ps : List Player) (stake : ℚ) (pen : String → ℚ) :
    totalPenaltyPoolOf ps stake pen = (ps.map (fun p => min stake (pen p.id))).sum := by
  unfold totalPenaltyPoolOf
  rw [foldl_add_eq_sum]
  ring

lemma recordSet_fresh (r : List (String × ℚ)) (k : String) (v : ℚ)
    (h : ∀ e ∈ r, e.1 ≠ k) : recordSet r k v = r ++ [(k, v)] := by
  unfold recordSet
  rw [if_neg]
  intro hany
  rcases List.any_eq_true.mp hany with ⟨e, he, hek⟩
  exact h e he (by simpa using hek)

lemma foldl_recordSet_eq_map (f : Player → ℚ) :
    ∀ (ps : List Player) (r : List (String × ℚ)),
      (ps.map Player.id).Nodup →
      (∀ p ∈ ps, ∀ e ∈ r, e.1 ≠ p.id) →
      ps.foldl (fun d p => recordSet d p.id (f p)) r = r ++ ps.map (fun p => (p.id, f p)) := by
  intro ps
  induction ps with
  | nil => intro r _ _; simp
  | cons p ps ih =>
    intro r hnd hfresh
    simp only [List.map_cons, List.nodup_cons] at hnd
    have hset : recordSet r p.id (f p) = r ++ [(p.id, f p)] :=
      recordSet_fresh r p.id (f p) (fun e he => hfresh p (by simp) e he)
    simp only [List.foldl_cons, hset]
    rw [ih (r ++ [(p.id, f p)]) hnd.2]
    · simp
    · intro q hq e he
      rcases List.mem_append.mp he with h1 | h2
      · exact hfresh q (by simp [hq]) e h1
      · have he2 : e = (p.id, f p) := by simpa using h2
        subst he2
        intro hcontra
        apply hnd.1
        have hid : p.id = q.id := hcontra
        rw [hid]
        exact List.mem_map_of_mem Player.id hq

lemma foldl_max_mem : ∀ (xs : List ℚ) (x : ℚ), xs.foldl max x = x ∨ xs.foldl max x ∈ xs := by
  intro xs
  induction xs with
  | nil => intro x; left; rfl
  | cons y ys ih =>
    intro x
    simp only [List.foldl_cons]
    rcases ih (max x y) with h | h
    · rcases max_choice x y with hx | hy
      · left; rw [h, hx]
      · right; rw [h, hy]; simp
    · right; simp [h]

lemma topScore_attained (a : Player) (as : List Player) :
    ∃ p ∈ a :: as, p.flowScore = topScoreOf (a :: as) := by
  unfold topScoreOf listMax
  simp only [List.map_cons]
  rcases foldl_max_mem (as.map Player.flowScore) a.flowScore with h | h
  · exact ⟨a, by simp, h.symm⟩
  · rcases List.mem_map.mp h with ⟨p, hp, hps⟩
    exact ⟨p, by simp [hp], hps⟩

lemma winners_length_pos (a : Player) (as : List Player) :
    0 < (winnersOf (a :: as)).length := by
  rcases topScore_attained a as with ⟨p, hp, hps⟩
  have : p ∈ winnersOf (a :: as) := by
    unfold winnersOf
    exact List.mem_filter.mpr ⟨hp, by simp [hps]⟩
  exact List.length_pos.mpr (fun hnil => by simp [hnil] at this)

lemma sum_map_ite (l : List Player) (q : Player → Bool) (B : ℚ) :
    (l.map (fun p => if q p then B else 0)).sum = (l.countP q : ℚ) * B := by
  induction l with
  | nil => simp
  | cons p ps ih =>
    by_cases h : q p
    · simp [List.countP_cons, h, ih]
      ring
    · simp [List.countP_cons, h, ih]

lemma mem_winners_iff (ps : List Player) (hids : (ps.map Player.id).Nodup)
    (p : Player) (hp : p ∈ ps) :
    ((winnersOf ps).any (fun w => w.id = p.id)) = true ↔ p.flowScore = topScoreOf ps := by
  constructor
  · intro h
    rcases List.any_eq_true.mp h with ⟨w, hw, hwid⟩
    have hw' := List.mem_filter.mp hw
    have : w = p := by
      have hinj := List.inj_on_of_nodup_map hids
      exact hinj hw'.1 hp (by simpa using hwid)
    rw [← this]
    simpa using hw'.2
  · intro h
    exact List.any_eq_true.mpr ⟨p, List.mem_filter.mpr ⟨hp, by simp [h]⟩, by simp⟩

lemma countP_winners (ps : List Player) (hids : (ps.map Player.id).Nodup) :
    ps.countP (fun p => (winnersOf ps).any (fun w => w.id = p.id))
      = (winnersOf ps).length := by
  rw [winnersOf, ← List.countP_eq_length_filter]
  apply List.countP_congr
  intro p hp
  constructor
  · intro h
    simpa using (mem_winners_iff ps hids p hp).mp h
  · intro h
    exact (mem_winners_iff ps hids p hp).mpr (by simpa using h)

lemma max_zero_sub_min (stake x : ℚ) : max 0 (stake - min stake x) = stake - min stake x :=
  max_eq_right (sub_nonneg.mpr (min_le_left stake x))

lemma sum_map_const_sub (stake : ℚ) (g : Player → ℚ) (l : List Player) :
    (l.map (fun p => stake - g p)).sum = l.length * stake - (l.map g).sum := by
  induction l with
  | nil => simp
  | cons p ps ih =>
    simp [ih]
    ring

lemma recordGet_map (f : Player → ℚ) :
    ∀ (ps : List Player), (ps.map Player.id).Nodup →
      ∀ p ∈ ps, recordGet (ps.map (fun q => (q.id, f q))) p.id = f p := by
  intro ps
  induction ps with
  | nil => intro _ p hp; cases hp
  | cons q qs ih =>
    intro hnd p hp
    simp only [List.map_cons, List.nodup_cons] at hnd
    rcases List.mem_cons.mp hp with rfl | hp'
    · unfold recordGet
      simp only [List.map_cons]
      rw [List.find?_cons_of_pos _ (by simp)]
      rfl
    · have hne : q.id ≠ p.id := by
        intro he
        exact hnd.1 (he ▸ List.mem_map_of_mem Player.id hp')
      unfold recordGet
      simp only [List.map_cons]
      rw [List.find?_cons_of_neg _ (by simp [hne])]
      exact ih hnd.2 p hp'

/-- C1: settlement conservation.  For any list of participants with pairwise
distinct ids, arbitrary final scores and accrued penalties, and a common
per-player stake, the payouts produced by computePayoutsFromPenalties sum to
the total staked amount (the length of the list times the per-player stake):
the pool redistributes value, it neither mints nor burns it. -/
theorem settlement_conservation (finalPlayers : List Player) (perPlayerStake : ℚ)
    (penaltyByPlayer : String → ℚ)
    (hids : (finalPlayers.map Player.id).Nodup) :
    ((computePayoutsFromPenalties finalPlayers perPlayerStake penaltyByPlayer).map
      Prod.snd).sum = finalPlayers.length * perPlayerStake := by
  match finalPlayers, hids with
  | [], _ => simp [computePayoutsFromPenalties]
  | a :: as, hids =>
    set ps : List Player := a :: as with hps
    have hlen : 0 < (winnersOf ps).length := winners_length_pos a as
    rw [show computePayoutsFromPenalties ps perPlayerStake penaltyByPlayer
        = ps.foldl (fun d p => recordSet d p.id (payoutOf ps perPlayerStake penaltyByPlayer p)) []
        from rfl]
    rw [foldl_recordSet_eq_map _ ps [] hids (by simp)]
    rw [List.nil_append, List.map_map]
    have hcomp : (Prod.snd ∘ fun p => (p.id, payoutOf ps perPlayerStake penaltyByPlayer p))
        = payoutOf ps perPlayerStake penaltyByPlayer := rfl
    rw [hcomp]
    have hfun : payoutOf ps perPlayerStake penaltyByPlayer
        = fun p => (perPlayerStake - min perPlayerStake (penaltyByPlayer p.id))
          + (if (winnersOf ps).any (fun w => w.id = p.id) then
              bonusPerWinnerOf ps perPlayerStake penaltyByPlayer
            else 0) := by
      funext p
      simp only [payoutOf, max_zero_sub_min]
    rw [hfun, List.sum_map_add, sum_map_const_sub, sum_map_ite, countP_winners ps hids]
    rw [bonusPerWinnerOf, if_pos hlen, totalPenaltyPool_eq_sum]
    have hne : ((winnersOf ps).length : ℚ) ≠ 0 := by
      exact_mod_cast Nat.pos_iff_ne_zero.mp hlen
    field_simp

/-- Witness for C1 at a concrete two-player session: stakes of 1 each, player
"b" has accrued penalty 4/5, and payouts sum to 2. -/
theorem settlement_conservation_witness :
    (([⟨"a", "A", true, 100, 10, "", "FOCUS", 70⟩,
       ⟨"b", "B", false, 100, 5, "", "FOCUS", 70⟩] : List Player).map Player.id).Nodup ∧
    ((computePayoutsFromPenalties
      [⟨"a", "A", true, 100, 10, "", "FOCUS", 70⟩,
       ⟨"b", "B", false, 100, 5, "", "FOCUS", 70⟩]
      1 (fun i => if i = "b" then (4 : ℚ)/5 else 0)).map Prod.snd).sum
      = ([⟨"a", "A", true, 100, 10, "", "FOCUS", 70⟩,
          ⟨"b", "B", false, 100, 5, "", "FOCUS", 70⟩] : List Player).length * 1 :=
  ⟨by decide,
   settlement_conservation
     [⟨"a", "A", true, 100, 10, "", "FOCUS", 70⟩,
      ⟨"b", "B", false, 100, 5, "", "FOCUS", 70⟩]
     1 (fun i => if i = "b" then (4 : ℚ)/5 else 0) (by decide)⟩

lemma computePayouts_eq_map (ps : List Player) (stake : ℚ) (pen : String → ℚ)
    (hids : (ps.map Player.id).Nodup) (hne : ps ≠ []) :
    computePayoutsFromPenalties ps stake pen
      = ps.map (fun p => (p.id, payoutOf ps stake pen p)) := by
  match ps, hids, hne with
  | a :: as, hids, _ =>
    rw [show computePayoutsFromPenalties (a :: as) stake pen
        = (a :: as).foldl
            (fun d p => recordSet d p.id (payoutOf (a :: as) stake pen p)) []
        from rfl]
    rw [foldl_recordSet_eq_map _ (a :: as) [] hids (by simp)]
    simp

/-- C4: tie handling.  Every participant holding the top score receives their
base payout plus exactly an equal share totalPenaltyPool / winners.length of
the penalty pool, and when there is a single winner that share is the entire
penalty pool. -/
theorem settlement_tie_split (finalPlayers : List Player) (perPlayerStake : ℚ)
    (penaltyByPlayer : String → ℚ)
    (hids : (finalPlayers.map Player.id).Nodup)
    (p : Player) (hp : p ∈ finalPlayers)
    (htop : p.flowScore = topScoreOf finalPlayers) :
    recordGet (computePayoutsFromPenalties finalPlayers perPlayerStake penaltyByPlayer) p.id
      = max 0 (perPlayerStake - min perPlayerStake (penaltyByPlayer p.id))
        + totalPenaltyPoolOf finalPlayers perPlayerStake penaltyByPlayer
            / ((winnersOf finalPlayers).length : ℚ)
    ∧ ((winnersOf finalPlayers).length = 1 →
        recordGet (computePayoutsFromPenalties finalPlayers perPlayerStake penaltyByPlayer) p.id
          = max 0 (perPlayerStake - min perPlayerStake (penaltyByPlayer p.id))
            + totalPenaltyPoolOf finalPlayers perPlayerStake penaltyByPlayer) := by
  have hne : finalPlayers ≠ [] := by
    intro h
    rw [h] at hp
    cases hp
  have hpw : p ∈ winnersOf finalPlayers := List.mem_filter.mpr ⟨hp, by simp [htop]⟩
  have hlen : 0 < (winnersOf finalPlayers).length :=
    List.length_pos.mpr (fun hnil => by simp [hnil] at hpw)
  have hany : ((winnersOf finalPlayers).any (fun w => w.id = p.id)) = true :=
    (mem_winners_iff finalPlayers hids p hp).mpr htop
  have h1 : recordGet (computePayoutsFromPenalties finalPlayers perPlayerStake penaltyByPlayer) p.id
      = max 0 (perPlayerStake - min perPlayerStake (penaltyByPlayer p.id))
        + totalPenaltyPoolOf finalPlayers perPlayerStake penaltyByPlayer
            / ((winnersOf finalPlayers).length : ℚ) := by
    rw [computePayouts_eq_map finalPlayers perPlayerStake penaltyByPlayer hids hne]
    rw [recordGet_map _ finalPlayers hids p hp]
    simp only [payoutOf, hany, if_true, bonusPerWinnerOf, if_pos hlen]
  refine ⟨h1, fun hlen1 => ?_⟩
  rw [h1, hlen1]
  norm_num

/-- Witness for C4: three players, two of them tied at the top score; the tied
player "a" receives base 1 plus half of the penalty pool 1/2, i.e. 5/4. -/
theorem settlement_tie_split_witness :
    (([⟨"a", "A", true, 100, 10, "", "FOCUS", 70⟩,
       ⟨"b", "B", false, 100, 10, "", "FOCUS", 70⟩,
       ⟨"c", "C", false, 100, 5, "", "FOCUS", 70⟩] : List Player).map Player.id).Nodup ∧
    recordGet (computePayoutsFromPenalties
      [⟨"a", "A", true, 100, 10, "", "FOCUS", 70⟩,
       ⟨"b", "B", false, 100, 10, "", "FOCUS", 70⟩,
       ⟨"c", "C", false, 100, 5, "", "FOCUS", 70⟩]
      1 (fun i => if i = "c" then (1 : ℚ)/2 else 0)) "a"
      = max 0 (1 - min 1 ((fun i : String => if i = "c" then (1 : ℚ)/2 else 0) "a"))
        + totalPenaltyPoolOf
            [⟨"a", "A", true, 100, 10, "", "FOCUS", 70⟩,
             ⟨"b", "B", false, 100, 10, "", "FOCUS", 70⟩,
             ⟨"c", "C", false, 100, 5, "", "FOCUS", 70⟩]
            1 (fun i => if i = "c" then (1 : ℚ)/2 else 0)
            / (((winnersOf
                [⟨"a", "A", true, 100, 10, "", "FOCUS", 70⟩,
                 ⟨"b", "B", false, 100, 10, "", "FOCUS", 70⟩,
                 ⟨"c", "C", false, 100, 5, "", "FOCUS", 70⟩]).length : ℕ) : ℚ) :=
  ⟨by decide,
   (settlement_tie_split
     [⟨"a", "A", true, 100, 10, "", "FOCUS", 70⟩,
      ⟨"b", "B", false, 100, 10, "", "FOCUS", 70⟩,
      ⟨"c", "C", false, 100, 5, "", "FOCUS", 70⟩]
     1 (fun i => if i = "c" then (1 : ℚ)/2 else 0) (by decide)
     ⟨"a", "A", true, 100, 10, "", "FOCUS", 70⟩ (by decide) (by decide)).1⟩

/-- UPDATE_MS = 100, the fixed 10hz tick period of the main game loop. -/
def UPDATE_MS : ℚ := 100

/-- SESSION_DURATION_MINUTES = 1 in the session component. -/
def SESSION_DURATION_MINUTES : ℚ := 1

/-- penaltyPerMs = stakeAmount / (SESSION_DURATION_MINUTES * 60 * 1000). -/
def penaltyPerMsOf (stakeAmount : ℚ) : ℚ :=
  stakeAmount / (SESSION_DURATION_MINUTES * 60 * 1000)

/-- increment = penaltyPerMs * UPDATE_MS, the per-tick penalty step of the
main game loop. -/
def penaltyTickIncrement (stakeAmount : ℚ) : ℚ :=
  penaltyPerMsOf stakeAmount * UPDATE_MS

/-- One penalty-accrual tick for one participant:
next[id] = wasDistracted ? Math.min(stakeAmount, current + increment) : current. -/
def penaltyTick (stakeAmount current : ℚ) (wasDistracted : Bool) : ℚ :=
  if wasDistracted then min stakeAmount (current + penaltyTickIncrement stakeAmount)
  else current

/-- A participant's accrued penalty after a sequence of ticks, starting from
the zero initialisation of the penalties record at session start. -/
def runPenalty (stakeAmount : ℚ) (ticks : List Bool) : ℚ :=
  ticks.foldl (penaltyTick stakeAmount) 0

lemma penaltyTickIncrement_nonneg (stakeAmount : ℚ) (h : 0 ≤ stakeAmount) :
    0 ≤ penaltyTickIncrement stakeAmount := by
  unfold penaltyTickIncrement penaltyPerMsOf UPDATE_MS SESSION_DURATION_MINUTES
  positivity

lemma penaltyTick_invariant (stakeAmount current : ℚ) (b : Bool)
    (hs : 0 ≤ stakeAmount) (h0 : 0 ≤ current) (h1 : current ≤ stakeAmount) :
    0 ≤ penaltyTick stakeAmount current b
      ∧ penaltyTick stakeAmount current b ≤ stakeAmount
      ∧ current ≤ penaltyTick stakeAmount current b := by
  have hinc := penaltyTickIncrement_nonneg stakeAmount hs
  unfold penaltyTick
  cases b with
  | false => exact ⟨h0, h1, le_refl current⟩
  | true =>
    simp only [if_true]
    refine ⟨le_min hs (by linarith), min_le_left _ _, le_min h1 (by linarith)⟩

lemma runPenalty_foldl_invariant (stakeAmount : ℚ) (hs : 0 ≤ stakeAmount) :
    ∀ (ticks : List Bool) (c : ℚ), 0 ≤ c → c ≤ stakeAmount →
      0 ≤ ticks.foldl (penaltyTick stakeAmount) c
        ∧ ticks.foldl (penaltyTick stakeAmount) c ≤ stakeAmount := by
  intro ticks
  induction ticks with
  | nil => intro c h0 h1; exact ⟨h0, h1⟩
  | cons b bs ih =>
    intro c h0 h1
    have hstep := penaltyTick_invariant stakeAmount c b hs h0 h1
    exact ih (penaltyTick stakeAmount c b) hstep.1 hstep.2.1

/-- C2: penalty boundedness and monotonicity.  Starting from the zero
initialisation, after any sequence of ticks (however long a negative label
persists) the accrued penalty lies in [0, stakedAmount], and appending one
more tick never decreases it. -/
theorem penalty_bounded_monotone (stakeAmount : ℚ) (hs : 0 ≤ stakeAmount)
    (ticks : List Bool) (b : Bool) :
    0 ≤ runPenalty stakeAmount ticks
      ∧ runPenalty stakeAmount ticks ≤ stakeAmount
      ∧ runPenalty stakeAmount ticks ≤ runPenalty stakeAmount (ticks ++ [b]) := by
  have hbounds := runPenalty_foldl_invariant stakeAmount hs ticks 0 (le_refl 0) hs
  refine ⟨hbounds.1, hbounds.2, ?_⟩
  unfold runPenalty
  rw [List.foldl_append]
  exact (penaltyTick_invariant stakeAmount _ b hs hbounds.1 hbounds.2).2.2

/-- Witness for C2: stake 1, three ticks of which two are distracted; the
accrued penalty is within bounds and one more distracted tick does not
decrease it. -/
theorem penalty_bounded_monotone_witness :
    (0 : ℚ) ≤ 1
      ∧ (0 ≤ runPenalty 1 [true, false, true]
          ∧ runPenalty 1 [true, false, true] ≤ 1
          ∧ runPenalty 1 [true, false, true]
              ≤ runPenalty 1 ([true, false, true] ++ [true])) :=
  ⟨by decide, penalty_bounded_monotone 1 (by decide) [true, false, true] true⟩

/-- Modelled from the spec: the per-tick increment that the specification
mandates, stakedAmount * (tickDurationMs / sessionDurationMs) with
tickDurationMs computed from wall-clock elapsed time since the previous tick. -/
def specWallClockIncrement (stakeAmount elapsedMs sessionDurationMs : ℚ) : ℚ :=
  stakeAmount * (elapsedMs / sessionDurationMs)

/-- The game-loop tick as a function of the wall-clock timestamps of the
previous and the current tick: the setInterval callback reads no clock when
accruing penalties, so the result ignores both timestamps. -/
def penaltyTickAt (stakeAmount current : ℚ) (prevTickMs nowMs : ℕ)
    (wasDistracted : Bool) : ℚ :=
  penaltyTick stakeAmount current wasDistracted

/-- Counterexample to C8: on a tick whose actual wall-clock gap is 200 ms
(e.g. one missed scheduling slot), the code adds the fixed nominal increment
stake * 100 / 60000 = 1/600, not the claimed wall-clock amount
stake * 200 / 60000 = 1/300. -/
theorem tick_increment_counterexample :
    penaltyTickAt 1 0 1000 1200 true = 1 / 600
      ∧ specWallClockIncrement 1 ((1200 : ℚ) - 1000) 60000 = 1 / 300
      ∧ (1 / 600 : ℚ) ≠ 1 / 300 := by
  refine ⟨?_, ?_, by decide⟩
  · unfold penaltyTickAt penaltyTick penaltyTickIncrement penaltyPerMsOf
      UPDATE_MS SESSION_DURATION_MINUTES
    norm_num
  · unfold specWallClockIncrement
    norm_num

/-- C8 amended: the per-tick penalty increment is computed from the fixed
nominal tick period UPDATE_MS, not from wall-clock elapsed time: the tick is
invariant under the actual inter-tick gap, and on a distracted tick it adds
exactly stakeAmount * (UPDATE_MS / sessionDurationMs) before clamping. -/
theorem tick_increment_fixed_rate (stakeAmount current : ℚ)
    (prev1 now1 prev2 now2 : ℕ) (b : Bool) :
    penaltyTickAt stakeAmount current prev1 now1 b
        = penaltyTickAt stakeAmount current prev2 now2 b
      ∧ penaltyTickAt stakeAmount current prev1 now1 true
        = min stakeAmount
            (current + specWallClockIncrement stakeAmount UPDATE_MS
              (SESSION_DURATION_MINUTES * 60 * 1000)) := by
  constructor
  · rfl
  · unfold penaltyTickAt penaltyTick penaltyTickIncrement penaltyPerMsOf
      specWallClockIncrement
    rw [if_pos rfl]
    ring_nf

/-- The four debounce thresholds of the orchestrator service, with their
environment-variable defaults. -/
structure SmoothConfig where
  SMOOTH_EYES_CLOSED_MS : ℕ
  SMOOTH_NO_FACE_MS : ℕ
  SMOOTH_OTHER_MS : ℕ
  SMOOTH_RECOVERY_MS : ℕ
  deriving DecidableEq, Repr

/-- Default configuration: 1200 / 400 / 250 / 200 ms. -/
def defaultSmoothConfig : SmoothConfig :=
  { SMOOTH_EYES_CLOSED_MS := 1200
    SMOOTH_NO_FACE_MS := 400
    SMOOTH_OTHER_MS := 250
    SMOOTH_RECOVERY_MS := 200 }

/-- getThresholdFor from the orchestrator service. -/
def getThresholdFor (cfg : SmoothConfig) : DistractionType → ℕ
  | .EYES_CLOSED => cfg.SMOOTH_EYES_CLOSED_MS
  | .NO_FACE => cfg.SMOOTH_NO_FACE_MS
  | .PHONE | .EATING | .TALKING => cfg.SMOOTH_OTHER_MS
  | .NONE => cfg.SMOOTH_RECOVERY_MS

/-- The module-level smoothing state of the orchestrator: candidateType,
candidateSinceMs and the committed label currentDistraction. -/
structure SmoothState where
  candidateType : DistractionType
  candidateSinceMs : ℕ
  currentDistraction : DistractionType
  deriving DecidableEq, Repr

/-- The candidate update of smoothLocalDetection: a raw label that differs
from the current candidate resets candidateType and candidateSinceMs. -/
def smoothCandidate (s : SmoothState) (detected : DistractionType) (now : ℕ) : SmoothState :=
  if detected ≠ s.candidateType then
    { s with candidateType := detected, candidateSinceMs := now }
  else s

/-- The decision tail of smoothLocalDetection: keep an already-committed
label; otherwise commit the candidate only once elapsed reaches its
threshold; otherwise keep the current committed label. -/
def smoothDecision (cfg : SmoothConfig) (s1 : SmoothState) (now : ℕ) :
    DistractionType × SmoothState :=
  if s1.currentDistraction = s1.candidateType then (s1.currentDistraction, s1)
  else if getThresholdFor cfg s1.candidateType ≤ now - s1.candidateSinceMs then
    (s1.candidateType, s1)
  else (s1.currentDistraction, s1)

/-- smoothLocalDetection: candidate update followed by the commit decision;
returns the smoothed label and the mutated candidate fields. -/
def smoothLocalDetection (cfg : SmoothConfig) (s : SmoothState)
    (detected : DistractionType) (now : ℕ) : DistractionType × SmoothState :=
  smoothDecision cfg (smoothCandidate s detected now) now

/-- updateLocalState: commits the smoothed label into currentDistraction. -/
def updateLocalState (s : SmoothState) (detectedType : DistractionType) : SmoothState :=
  { s with currentDistraction := detectedType }

/-- One Gemini run of processFrame: smooth the detected label, then commit it
via updateLocalState; returns the label handed back to the vision loop. -/
def geminiRun (cfg : SmoothConfig) (s : SmoothState) (detected : DistractionType)
    (now : ℕ) : DistractionType × SmoothState :=
  let result := (smoothLocalDetection cfg s detected now).1
  let s1 := (smoothLocalDetection cfg s detected now).2
  (result, updateLocalState s1 result)

/-- Folding a timed sequence of raw oracle labels through the smoother. -/
def runGemini (cfg : SmoothConfig) (s0 : SmoothState)
    (samples : List (DistractionType × ℕ)) : SmoothState :=
  samples.foldl (fun s sample => (geminiRun cfg s sample.1 sample.2).2) s0

/-- All four debounce thresholds are positive (true of the defaults). -/
def PositiveThresholds (cfg : SmoothConfig) : Prop :=
  0 < cfg.SMOOTH_EYES_CLOSED_MS ∧ 0 < cfg.SMOOTH_NO_FACE_MS
    ∧ 0 < cfg.SMOOTH_OTHER_MS ∧ 0 < cfg.SMOOTH_RECOVERY_MS

lemma getThresholdFor_pos (cfg : SmoothConfig) (hpos : PositiveThresholds cfg)
    (d : DistractionType) : 0 < getThresholdFor cfg d := by
  cases d <;> simp [getThresholdFor]
  · exact hpos.2.2.2
  · exact hpos.2.2.1
  · exact hpos.2.1
  · exact hpos.1
  · exact hpos.2.2.1
  · exact hpos.2.2.1

lemma geminiRun_reset (cfg : SmoothConfig) (hpos : PositiveThresholds cfg)
    (s : SmoothState) (d : DistractionType) (t : ℕ) (hd : d ≠ s.candidateType) :
    (geminiRun cfg s d t).2
      = ⟨d, t, s.currentDistraction⟩ := by
  have hth : getThresholdFor cfg d ≠ 0 :=
    Nat.pos_iff_ne_zero.mp (getThresholdFor_pos cfg hpos d)
  unfold geminiRun smoothLocalDetection smoothDecision smoothCandidate updateLocalState
  by_cases hc : s.currentDistraction = d
  · simp [hd, hc, hth]
  · simp [hd, hc, hth]

/-- Anti-flicker core: if every raw label differs from the previous candidate,
the candidate timer is reset on every sample, so the committed label never
changes, whatever the sample timing. -/
lemma oscillation_aux (cfg : SmoothConfig)
    (hpos : PositiveThresholds cfg) (s0 : SmoothState)
    (samples : List (DistractionType × ℕ))
    (hflick : List.Chain' (fun a b => a ≠ b)
      (s0.candidateType :: samples.map Prod.fst)) :
    (runGemini cfg s0 samples).currentDistraction = s0.currentDistraction := by
  induction samples generalizing s0 with
  | nil => rfl
  | cons sample rest ih =>
    rcases sample with ⟨d, t⟩
    simp only [List.map_cons, List.chain'_cons] at hflick
    have hd : d ≠ s0.candidateType := fun h => hflick.1 h.symm
    have hstep := geminiRun_reset cfg hpos s0 d t hd
    show (runGemini cfg ((geminiRun cfg s0 d t).2) rest).currentDistraction
        = s0.currentDistraction
    rw [hstep]
    exact ih ⟨d, t, s0.currentDistraction⟩ hflick.2

lemma smoothDecision_snd (cfg : SmoothConfig) (s1 : SmoothState) (now : ℕ) :
    (smoothDecision cfg s1 now).2 = s1 := by
  unfold smoothDecision
  split
  · rfl
  · split <;> rfl

lemma smoothDecision_fst (cfg : SmoothConfig) (s1 : SmoothState) (now : ℕ) :
    (smoothDecision cfg s1 now).1
      = if s1.currentDistraction = s1.candidateType then s1.currentDistraction
        else if getThresholdFor cfg s1.candidateType ≤ now - s1.candidateSinceMs then
          s1.candidateType
        else s1.currentDistraction := by
  unfold smoothDecision
  split
  · rfl
  · split <;> rfl

lemma smoothLocalDetection_state (cfg : SmoothConfig) (s : SmoothState) (d : DistractionType) (now : ℕ) :
    (smoothLocalDetection cfg s d now).2 = smoothCandidate s d now := by
  unfold smoothLocalDetection
  exact smoothDecision_snd cfg _ now


lemma geminiRun_state (cfg : SmoothConfig) (s : SmoothState) (d : DistractionType) (now : ℕ) :
    (geminiRun cfg s d now).2
      = { candidateType := (smoothCandidate s d now).candidateType
          candidateSinceMs := (smoothCandidate s d now).candidateSinceMs
          currentDistraction := (smoothLocalDetection cfg s d now).1 } := by
  unfold geminiRun updateLocalState
  rw [smoothLocalDetection_state]

lemma geminiRun_change_step (cfg : SmoothConfig) (hpos : PositiveThresholds cfg)
    (s : SmoothState) (d : DistractionType) (now : ℕ)
    (hch : (geminiRun cfg s d now).2.currentDistraction ≠ s.currentDistraction) :
    d = s.candidateType
      ∧ (geminiRun cfg s d now).2.currentDistraction = s.candidateType
      ∧ getThresholdFor cfg s.candidateType ≤ now - s.candidateSinceMs := by
  by_cases hr : d ≠ s.candidateType
  · exfalso
    have hreset := geminiRun_reset cfg hpos s d now hr
    rw [hreset] at hch
    exact hch rfl
  · push_neg at hr
    have hcand : smoothCandidate s d now = s := by
      unfold smoothCandidate
      rw [if_neg (not_not_intro hr)]
    have hcur : (geminiRun cfg s d now).2.currentDistraction
        = (smoothDecision cfg s now).1 := by
      rw [geminiRun_state]
      show (smoothLocalDetection cfg s d now).1 = _
      unfold smoothLocalDetection
      rw [hcand]
    rw [hcur] at hch ⊢
    rw [smoothDecision_fst] at hch ⊢
    by_cases h1 : s.currentDistraction = s.candidateType
    · rw [if_pos h1] at hch
      exact absurd rfl hch
    · rw [if_neg h1] at hch ⊢
      by_cases h2 : getThresholdFor cfg s.candidateType ≤ now - s.candidateSinceMs
      · rw [if_pos h2]
        exact ⟨hr, rfl, h2⟩
      · rw [if_neg h2] at hch
        exact absurd rfl hch

lemma geminiRun_invariant_step (cfg : SmoothConfig) (s : SmoothState)
    (d : DistractionType) (now t1 : ℕ) (ht : t1 ≤ now)
    (hinv : s.currentDistraction = s.candidateType ∨ t1 ≤ s.candidateSinceMs) :
    (geminiRun cfg s d now).2.currentDistraction = (geminiRun cfg s d now).2.candidateType
      ∨ t1 ≤ (geminiRun cfg s d now).2.candidateSinceMs := by
  rw [geminiRun_state]
  by_cases hr : d ≠ s.candidateType
  · right
    show t1 ≤ (smoothCandidate s d now).candidateSinceMs
    unfold smoothCandidate
    rw [if_pos hr]
    exact ht
  · have hcand : smoothCandidate s d now = s := by
      unfold smoothCandidate
      rw [if_neg hr]
    have hfst : (smoothLocalDetection cfg s d now).1 = (smoothDecision cfg s now).1 := by
      unfold smoothLocalDetection
      rw [hcand]
    show (smoothLocalDetection cfg s d now).1 = (smoothCandidate s d now).candidateType
        ∨ t1 ≤ (smoothCandidate s d now).candidateSinceMs
    rw [hcand, hfst, smoothDecision_fst]
    by_cases h1 : s.currentDistraction = s.candidateType
    · left
      rw [if_pos h1]
      exact h1
    · by_cases h2 : getThresholdFor cfg s.candidateType ≤ now - s.candidateSinceMs
      · left
        rw [if_neg h1, if_pos h2]
      · right
        rcases hinv with hl | hrr
        · exact absurd hl h1
        · exact hrr

lemma runGemini_invariant (cfg : SmoothConfig) (t1 : ℕ) :
    ∀ (pre : List (DistractionType × ℕ)) (s : SmoothState),
      (s.currentDistraction = s.candidateType ∨ t1 ≤ s.candidateSinceMs) →
      (∀ smp ∈ pre, t1 ≤ smp.2) →
      ((runGemini cfg s pre).currentDistraction = (runGemini cfg s pre).candidateType
        ∨ t1 ≤ (runGemini cfg s pre).candidateSinceMs) := by
  intro pre
  induction pre with
  | nil => intro s hinv _; exact hinv
  | cons smp rest ih =>
    intro s hinv htimes
    rcases smp with ⟨d, t⟩
    have ht : t1 ≤ t := htimes (d, t) (by simp)
    have hstep := geminiRun_invariant_step cfg s d t t1 ht hinv
    exact ih ((geminiRun cfg s d t).2) hstep (fun smp hm => htimes smp (by simp [hm]))

/-- C3: anti-flicker and debounce rate limit.  First conjunct: if every raw
label differs from the previous candidate — in particular for an oscillating
raw signal A, B, A, B, ... with A and B distinct, arriving at any speed — the
candidate timer is reset on every sample and the committed label never
changes, so neither A nor B is ever committed.  Second conjunct: from any
state whose committed label equals its candidate (as holds right after every
commit) or whose candidate timer starts no earlier than t1, over samples no
earlier than t1, a step that changes the committed label can only commit the
standing candidate, and only at a time at least t1 + threshold of the newly
committed label: the committed label changes at most once per
threshold(label) interval for any given candidate. -/
theorem oscillating_raw_never_commits (cfg : SmoothConfig)
    (hpos : PositiveThresholds cfg) :
    (∀ (s0 : SmoothState) (samples : List (DistractionType × ℕ)),
        List.Chain' (fun a b => a ≠ b) (s0.candidateType :: samples.map Prod.fst) →
        (runGemini cfg s0 samples).currentDistraction = s0.currentDistraction)
      ∧ (∀ (s0 : SmoothState) (t1 : ℕ) (pre : List (DistractionType × ℕ))
            (d : DistractionType) (t : ℕ),
          s0.currentDistraction = s0.candidateType ∨ t1 ≤ s0.candidateSinceMs →
          (∀ smp ∈ pre, t1 ≤ smp.2) →
          (geminiRun cfg (runGemini cfg s0 pre) d t).2.currentDistraction
              ≠ (runGemini cfg s0 pre).currentDistraction →
          (geminiRun cfg (runGemini cfg s0 pre) d t).2.currentDistraction
              = (runGemini cfg s0 pre).candidateType
            ∧ t1 + getThresholdFor cfg
                ((geminiRun cfg (runGemini cfg s0 pre) d t).2.currentDistraction) ≤ t) := by
  constructor
  · exact fun s0 samples hflick => oscillation_aux cfg hpos s0 samples hflick
  · intro s0 t1 pre d t hstart htimes hch
    set sp : SmoothState := runGemini cfg s0 pre with hsp
    have hinv := runGemini_invariant cfg t1 pre s0 hstart htimes
    have hA := geminiRun_change_step cfg hpos sp d t hch
    have hnewlabel : (geminiRun cfg sp d t).2.currentDistraction = sp.candidateType := hA.2.1
    have hright : t1 ≤ sp.candidateSinceMs := by
      rcases hinv with hl | hr
      · exfalso
        have hcand : smoothCandidate sp d t = sp := by
          unfold smoothCandidate
          rw [if_neg (not_not_intro hA.1)]
        have hnoch : (geminiRun cfg sp d t).2.currentDistraction
            = sp.currentDistraction := by
          rw [geminiRun_state]
          show (smoothLocalDetection cfg sp d t).1 = _
          unfold smoothLocalDetection
          rw [hcand, smoothDecision_fst, if_pos hl]
        exact hch hnoch
      · exact hr
    have hth := hA.2.2
    have hthpos := getThresholdFor_pos cfg hpos sp.candidateType
    refine ⟨hnewlabel, ?_⟩
    rw [hnewlabel]
    omega

/-- Witness for C3: from a neutral state, a PHONE/TALKING signal oscillating
every 50 ms (faster than every threshold) never commits either label; and
from a state whose PHONE candidate was set at time 0 with committed label
NONE, a change fires at 250 ms and respects threshold(PHONE) = 250. -/
theorem oscillating_raw_never_commits_witness :
    PositiveThresholds defaultSmoothConfig
      ∧ (runGemini defaultSmoothConfig ⟨.NONE, 0, .NONE⟩
          [(DistractionType.PHONE, 0), (DistractionType.TALKING, 50),
           (DistractionType.PHONE, 100), (DistractionType.TALKING, 150)]).currentDistraction
          = (⟨.NONE, 0, .NONE⟩ : SmoothState).currentDistraction
      ∧ ((geminiRun defaultSmoothConfig
            (runGemini defaultSmoothConfig ⟨.PHONE, 0, .NONE⟩ [])
            DistractionType.PHONE 250).2.currentDistraction
            = (runGemini defaultSmoothConfig ⟨.PHONE, 0, .NONE⟩ []).candidateType
          ∧ 0 + getThresholdFor defaultSmoothConfig
              ((geminiRun defaultSmoothConfig
                (runGemini defaultSmoothConfig ⟨.PHONE, 0, .NONE⟩ [])
                DistractionType.PHONE 250).2.currentDistraction) ≤ 250) :=
  have hpos : PositiveThresholds defaultSmoothConfig :=
    ⟨by decide, by decide, by decide, by decide⟩
  ⟨hpos,
   (oscillating_raw_never_commits defaultSmoothConfig hpos).1 ⟨.NONE, 0, .NONE⟩
     [(DistractionType.PHONE, 0), (DistractionType.TALKING, 50),
      (DistractionType.PHONE, 100), (DistractionType.TALKING, 150)] (by simp),
   (oscillating_raw_never_commits defaultSmoothConfig hpos).2 ⟨.PHONE, 0, .NONE⟩ 0 []
     DistractionType.PHONE 250 (Or.inr (by decide)) (by simp) (by decide)⟩

lemma runGemini_none_state (cfg : SmoothConfig) :
    ∀ (ts : List ℕ) (s : SmoothState), s.candidateType = .NONE →
      (runGemini cfg s (ts.map (fun t => (DistractionType.NONE, t)))).candidateType
          = DistractionType.NONE
        ∧ (runGemini cfg s (ts.map (fun t => (DistractionType.NONE, t)))).candidateSinceMs
            = s.candidateSinceMs := by
  intro ts
  induction ts with
  | nil => intro s hc; exact ⟨hc, rfl⟩
  | cons t ts ih =>
    intro s hc
    have hstep := geminiRun_state cfg s DistractionType.NONE t
    have hnr : ¬ DistractionType.NONE ≠ s.candidateType := by simp [hc]
    have hcand : (geminiRun cfg s DistractionType.NONE t).2.candidateType
        = DistractionType.NONE := by rw [hstep]; simp [smoothCandidate, hnr, hc]
    have hsince : (geminiRun cfg s DistractionType.NONE t).2.candidateSinceMs
        = s.candidateSinceMs := by rw [hstep]; simp [smoothCandidate, hnr]
    have := ih (geminiRun cfg s DistractionType.NONE t).2 hcand
    exact ⟨this.1, this.2.trans hsince⟩

lemma geminiRun_first_none (cfg : SmoothConfig) (s : SmoothState) (t0 : ℕ)
    (hsince : s.candidateSinceMs ≤ t0) :
    (geminiRun cfg s DistractionType.NONE t0).2.candidateType = DistractionType.NONE
      ∧ (geminiRun cfg s DistractionType.NONE t0).2.candidateSinceMs ≤ t0 := by
  rw [geminiRun_state]
  by_cases h : DistractionType.NONE ≠ s.candidateType
  · simp [smoothCandidate, h]
  · have h' : s.candidateType = DistractionType.NONE := (not_not.mp h).symm
    simp [smoothCandidate, h, h', hsince]

lemma geminiRun_none_commits (cfg : SmoothConfig) (s : SmoothState) (tl : ℕ)
    (hc : s.candidateType = .NONE)
    (hel : getThresholdFor cfg .NONE ≤ tl - s.candidateSinceMs) :
    (geminiRun cfg s DistractionType.NONE tl).2.currentDistraction
      = DistractionType.NONE := by
  rw [geminiRun_state]
  have hnr : ¬ DistractionType.NONE ≠ s.candidateType := by simp [hc]
  have hcand : smoothCandidate s DistractionType.NONE tl = s := by
    unfold smoothCandidate
    rw [if_neg hnr]
  show (smoothLocalDetection cfg s DistractionType.NONE tl).1 = DistractionType.NONE
  unfold smoothLocalDetection
  rw [hcand, smoothDecision_fst]
  by_cases hcur : s.currentDistraction = s.candidateType
  · rw [if_pos hcur, hcur, hc]
  · rw [if_neg hcur, hc, if_pos hel]

/-- Fast-recovery core: if the raw label is NONE at some sample at time t0 (with
the candidate timer at most t0) and stays NONE for every following sample, then
at any later sample at time tl with t0 + threshold(NONE) ≤ tl the committed
label has become NONE, whatever it was before. -/
lemma fast_recovery_aux (cfg : SmoothConfig) (s0 : SmoothState) (t0 : ℕ)
    (mid : List ℕ) (tl : ℕ)
    (hsince : s0.candidateSinceMs ≤ t0)
    (hth : t0 + getThresholdFor cfg .NONE ≤ tl) :
    (runGemini cfg s0
      (((t0 :: mid) ++ [tl]).map (fun t => (DistractionType.NONE, t)))).currentDistraction
      = DistractionType.NONE := by
  have hfirst := geminiRun_first_none cfg s0 t0 hsince
  set s1 : SmoothState := (geminiRun cfg s0 DistractionType.NONE t0).2 with hs1
  have hmid := runGemini_none_state cfg mid s1 hfirst.1
  set s2 : SmoothState :=
    runGemini cfg s1 (mid.map (fun t => (DistractionType.NONE, t))) with hs2
  have hrun : runGemini cfg s0
      (((t0 :: mid) ++ [tl]).map (fun t => (DistractionType.NONE, t)))
      = (geminiRun cfg s2 DistractionType.NONE tl).2 := by
    simp only [List.cons_append, List.map_cons, List.map_append, List.map_cons,
      List.map_nil, runGemini, List.foldl_cons, List.foldl_append, List.foldl_nil]
    rfl
  rw [hrun]
  apply geminiRun_none_commits cfg s2 tl hmid.1
  have h2 : s2.candidateSinceMs ≤ t0 := by
    rw [hmid.2]
    exact hfirst.2
  omega

/-- C6: under the default configuration the neutral label has the strictly
shortest debounce threshold of all labels, and whenever the raw label becomes
neutral and holds for threshold(NONE), the committed label becomes neutral,
even if the candidate timer had just been reset by a prior non-neutral label. -/
theorem neutral_fastest_recovery :
    (∀ d : DistractionType, d ≠ .NONE →
        getThresholdFor defaultSmoothConfig .NONE < getThresholdFor defaultSmoothConfig d)
      ∧ (∀ (cfg : SmoothConfig) (s0 : SmoothState) (t0 : ℕ) (mid : List ℕ) (tl : ℕ),
          s0.candidateSinceMs ≤ t0 → t0 + getThresholdFor cfg .NONE ≤ tl →
          (runGemini cfg s0
            (((t0 :: mid) ++ [tl]).map
              (fun t => (DistractionType.NONE, t)))).currentDistraction
            = DistractionType.NONE) := by
  constructor
  · intro d hd
    cases d with
    | NONE => exact absurd rfl hd
    | PHONE => decide
    | NO_FACE => decide
    | EYES_CLOSED => decide
    | TALKING => decide
    | EATING => decide
  · exact fast_recovery_aux

/-- Witness for C6: the committed label was PHONE and the candidate had just
been reset at time 10; neutral raw samples at 10, 100 and 250 ms commit NONE
(250 is at least 10 + 200), and threshold(NONE) is shorter than
threshold(NO_FACE). -/
theorem neutral_fastest_recovery_witness :
    getThresholdFor defaultSmoothConfig .NONE < getThresholdFor defaultSmoothConfig .NO_FACE
      ∧ (runGemini defaultSmoothConfig ⟨.PHONE, 10, .PHONE⟩
          ((((10 : ℕ) :: [100]) ++ [250]).map
            (fun t => (DistractionType.NONE, t)))).currentDistraction
          = DistractionType.NONE :=
  ⟨neutral_fastest_recovery.1 .NO_FACE (by decide),
   neutral_fastest_recovery.2 defaultSmoothConfig ⟨.PHONE, 10, .PHONE⟩ 10 [100] 250
     (by decide) (by decide)⟩

/-- The adaptive cadence of the vision loop in the session component:
nextDelay = result !== NONE ? 90 : 180. -/
def visionNextDelay (result : DistractionType) : ℕ :=
  if result ≠ .NONE then 90 else 180

/-- nextDelay = 4000, the vision-loop backoff applied when frame processing
throws. -/
def VISION_ERROR_BACKOFF_MS : ℕ := 4000

/-- GEMINI_INTERVAL_DISTRACTED default: 100 ms. -/
def GEMINI_INTERVAL_DISTRACTED_MS : ℕ := 100

/-- GEMINI_INTERVAL_FOCUS default: 180 ms. -/
def GEMINI_INTERVAL_FOCUS_MS : ℕ := 180

/-- intervalTarget in processFrame: the focus interval while the committed
label is NONE, the faster distracted interval otherwise. -/
def geminiIntervalTarget (currentDistraction : DistractionType) : ℕ :=
  if currentDistraction = .NONE then GEMINI_INTERVAL_FOCUS_MS
  else GEMINI_INTERVAL_DISTRACTED_MS

/-- C7: cadence asymmetry.  For every non-neutral committed label the vision
loop reschedules strictly sooner than for the neutral label, and the Gemini
blending interval is likewise strictly shorter; in particular the absence
label NO_FACE is polled strictly faster than NONE. -/
theorem cadence_asymmetry (L : DistractionType) (hL : L ≠ .NONE) :
    visionNextDelay L < visionNextDelay .NONE
      ∧ geminiIntervalTarget L < geminiIntervalTarget .NONE
      ∧ visionNextDelay .NO_FACE < visionNextDelay .NONE := by
  cases L with
  | NONE => exact absurd rfl hL
  | PHONE => exact ⟨by decide, by decide, by decide⟩
  | NO_FACE => exact ⟨by decide, by decide, by decide⟩
  | EYES_CLOSED => exact ⟨by decide, by decide, by decide⟩
  | TALKING => exact ⟨by decide, by decide, by decide⟩
  | EATING => exact ⟨by decide, by decide, by decide⟩

/-- Witness for C7 at the absence label. -/
theorem cadence_asymmetry_witness :
    visionNextDelay .NO_FACE < visionNextDelay .NONE
      ∧ geminiIntervalTarget .NO_FACE < geminiIntervalTarget .NONE
      ∧ visionNextDelay .NO_FACE < visionNextDelay .NONE :=
  cadence_asymmetry .NO_FACE (by decide)

/-- Failure modes of a classification-oracle call: transport error, timeout,
or a malformed/unparseable response; all land in the catch branch of
analyzeUserStatus. -/
inductive GeminiError where
  | transport
  | timeout
  | malformed
  deriving DecidableEq, Repr

/-- The headOrientation enum of the vision response schema. -/
inductive HeadOrientation where
  | FACING_SCREEN
  | LOOKING_DOWN
  | LOOKING_AWAY
  | ABSENT
  deriving DecidableEq, Repr

/-- The status enum of the vision response schema. -/
inductive VisionStatus where
  | PHONE
  | EATING
  | EYES_CLOSED
  | TALKING
  | NO_FACE
  | FOCUS
  deriving DecidableEq, Repr

/-- A successfully parsed vision response. -/
structure VisionResponse where
  faceVisible : Bool
  headOrientation : HeadOrientation
  status : VisionStatus
  deriving DecidableEq, Repr

/-- The status-to-label mapping at the tail of analyzeUserStatus. -/
def visionStatusToDistraction : VisionStatus → DistractionType
  | .PHONE => .PHONE
  | .EATING => .EATING
  | .EYES_CLOSED => .EYES_CLOSED
  | .TALKING => .TALKING
  | .NO_FACE => .NO_FACE
  | .FOCUS => .NONE

/-- analyzeUserStatus from geminiService.ts as a function of the oracle-call
outcome: strict NO_FACE enforcement, the looking-down override, FOCUS mapped
to NONE, and the catch branch returning the neutral fallback NONE on every
failure (the error is not re-thrown to the caller). -/
def analyzeUserStatus : Except GeminiError VisionResponse → DistractionType
  | .error _ => .NONE
  | .ok r =>
    if r.faceVisible = false ∨ r.headOrientation = .ABSENT ∨ r.status = .NO_FACE then
      .NO_FACE
    else if r.status = .EYES_CLOSED ∧ r.headOrientation = .LOOKING_DOWN then
      .NONE
    else visionStatusToDistraction r.status

/-- One iteration of runVisionCheck on the Gemini path: classify the frame,
smooth and commit the label, and choose the adaptive reschedule delay from the
returned result.  Since analyzeUserStatus swallows its own failures, the 4000
ms error backoff of the vision loop is not reached by an oracle failure. -/
def visionCheckStep (cfg : SmoothConfig) (s : SmoothState)
    (oracle : Except GeminiError VisionResponse) (now : ℕ) :
    DistractionType × SmoothState × ℕ :=
  let detected := analyzeUserStatus oracle
  let result := (geminiRun cfg s detected now).1
  let s1 := (geminiRun cfg s detected now).2
  (result, s1, visionNextDelay result)

/-- An oracle outage: a sequence of failing calls at given times, folded
through the vision loop; returns the final smoothing state and the list of
cadence delays chosen after each failed call. -/
def runVisionOutage (cfg : SmoothConfig) (s0 : SmoothState)
    (failures : List (GeminiError × ℕ)) : SmoothState × List ℕ :=
  failures.foldl
    (fun acc et =>
      ((visionCheckStep cfg acc.1 (Except.error et.1) et.2).2.1,
        acc.2 ++ [(visionCheckStep cfg acc.1 (Except.error et.1) et.2).2.2]))
    (s0, [])

/-- Counterexample to C5: with the committed label PHONE before the outage
(candidate PHONE since 0 ms), five consecutive failing oracle calls at 1000,
1090, 1180, 1270 and 1360 ms leave the committed label NONE, not the
pre-failure PHONE, and every cadence delay is the adaptive 90 or 180 ms, never
the fixed 4000 ms backoff. -/
theorem oracle_outage_counterexample :
    (runVisionOutage defaultSmoothConfig ⟨.PHONE, 0, .PHONE⟩
        [(.transport, 1000), (.timeout, 1090), (.malformed, 1180),
         (.transport, 1270), (.timeout, 1360)]).1.currentDistraction
        = DistractionType.NONE
      ∧ DistractionType.NONE ≠ DistractionType.PHONE
      ∧ (runVisionOutage defaultSmoothConfig ⟨.PHONE, 0, .PHONE⟩
          [(.transport, 1000), (.timeout, 1090), (.malformed, 1180),
           (.transport, 1270), (.timeout, 1360)]).2
          = [90, 90, 90, 180, 180]
      ∧ (∀ d ∈ (runVisionOutage defaultSmoothConfig ⟨.PHONE, 0, .PHONE⟩
          [(.transport, 1000), (.timeout, 1090), (.malformed, 1180),
           (.transport, 1270), (.timeout, 1360)]).2, d ≠ VISION_ERROR_BACKOFF_MS) := by
  decide

/-- C5 amended: a failing oracle call makes analyzeUserStatus return the
neutral fallback label without signalling the failure, so the vision loop
treats it as a normal result: the delay after a failed call is the adaptive
visionNextDelay of the returned label (never the 4000 ms backoff reserved for
frame-pipeline exceptions), and an outage whose neutral fallbacks persist for
threshold(NONE) drives the committed label to NONE instead of freezing it at
its pre-failure value. -/
theorem oracle_outage_behavior (cfg : SmoothConfig) (s : SmoothState)
    (e : GeminiError) (now : ℕ) :
    analyzeUserStatus (Except.error e) = DistractionType.NONE
      ∧ (visionCheckStep cfg s (Except.error e) now).2.2
          = visionNextDelay (visionCheckStep cfg s (Except.error e) now).1
      ∧ (visionCheckStep cfg s (Except.error e) now).2.2 ≠ VISION_ERROR_BACKOFF_MS
      ∧ (∀ (s0 : SmoothState) (t0 : ℕ) (mid : List ℕ) (tl : ℕ),
          s0.candidateSinceMs ≤ t0 → t0 + getThresholdFor cfg .NONE ≤ tl →
          (runGemini cfg s0
            (((t0 :: mid) ++ [tl]).map
              (fun t => (analyzeUserStatus (Except.error e), t)))).currentDistraction
            = DistractionType.NONE) := by
  refine ⟨rfl, rfl, ?_, ?_⟩
  · show visionNextDelay ((geminiRun cfg s (analyzeUserStatus (Except.error e)) now).1)
        ≠ VISION_ERROR_BACKOFF_MS
    unfold visionNextDelay VISION_ERROR_BACKOFF_MS
    split
    · decide
    · decide
  · intro s0 t0 mid tl hsince hth
    exact fast_recovery_aux cfg s0 t0 mid tl hsince hth

/-- Witness for C5's amended theorem: a transport failure maps to NONE, and an
outage holding from 10 ms to 250 ms commits NONE from a PHONE state under the
default thresholds. -/
theorem oracle_outage_behavior_witness :
    analyzeUserStatus (Except.error GeminiError.transport) = DistractionType.NONE
      ∧ (runGemini defaultSmoothConfig ⟨.PHONE, 10, .PHONE⟩
          ((((10 : ℕ) :: [100]) ++ [250]).map
            (fun t => (analyzeUserStatus (Except.error GeminiError.transport), t)))).currentDistraction
          = DistractionType.NONE :=
  ⟨(oracle_outage_behavior defaultSmoothConfig ⟨.NONE, 0, .NONE⟩ .transport 0).1,
   (oracle_outage_behavior defaultSmoothConfig ⟨.PHONE, 10, .PHONE⟩ .transport 0).2.2.2
     ⟨.PHONE, 10, .PHONE⟩ 10 [100] 250 (by decide) (by decide)⟩

/-- BiometricData from types.ts; heartRate is an integer after Math.round. -/
structure BiometricData where
  gazeStability : ℚ
  heartRate : ℤ
  distractionType : DistractionType
  flowScoreDelta : ℚ
  deriving DecidableEq, Repr

/-- Math.round: round half away from zero agrees with floor(x + 1/2) on the
half-up side, which matches JavaScript semantics. -/
def jsRound (q : ℚ) : ℤ := ⌊q + 1/2⌋

/-- simulateBiometrics from the mock service: the module state
(forcedDistraction, aiDetectedDistraction, currentHeartRate) is passed
explicitly, as are the two Math.random draws (glitch is the
Math.random() > 0.95 micro-glitch, noise the (Math.random() - 0.5) * 3
physiological noise).  Returns the biometric sample and the new
currentHeartRate. -/
def simulateBiometricsMock (forcedDistraction aiDetectedDistraction : DistractionType)
    (isUserActive isTabFocused : Bool) (currentHeartRate : ℚ)
    (glitch : Bool) (noise : ℚ) : BiometricData × ℚ :=
  let activeDistraction : DistractionType :=
    if forcedDistraction ≠ .NONE then forcedDistraction
    else if aiDetectedDistraction ≠ .NONE then aiDetectedDistraction
    else if !isTabFocused then .NO_FACE
    else .NONE
  let targetHR : ℚ :=
    match activeDistraction with
    | .PHONE => 110
    | .EATING => 85
    | .TALKING => 95
    | .EYES_CLOSED => 55
    | .NO_FACE => 70
    | .NONE => if isUserActive then 75 else 65
  let gazeStability : ℚ :=
    match activeDistraction with
    | .PHONE => 10
    | .EATING => 40
    | .TALKING => 30
    | .EYES_CLOSED => 0
    | .NO_FACE => 0
    | .NONE => (if isUserActive then (95 : ℚ) else 85) - (if glitch then 15 else 0)
  let delta : ℚ :=
    match activeDistraction with
    | .PHONE => -1.5
    | .EATING => -0.5
    | .TALKING => -0.8
    | .EYES_CLOSED => -1.0
    | .NO_FACE => -2.0
    | .NONE => 0.1
  let approachSpeed : ℚ := 0.05
  let newHeartRate := currentHeartRate + (targetHR - currentHeartRate) * approachSpeed
  ({ gazeStability := gazeStability
     heartRate := jsRound (newHeartRate + noise)
     distractionType := activeDistraction
     flowScoreDelta := delta }, newHeartRate)

/-- simulateBiometrics from the orchestrator service: the second signal source
is the committed currentDistraction; heart-rate smoothing and noise are
suppressed while the remote backend is active. -/
def simulateBiometricsOrchestrator (forcedDistraction currentDistraction : DistractionType)
    (isUserActive isTabFocused isRemoteActive : Bool)
    (currentHeartRate currentGazeStability : ℚ) (noise : ℚ) : BiometricData × ℚ :=
  let activeDistraction : DistractionType :=
    if forcedDistraction ≠ .NONE then forcedDistraction
    else if currentDistraction ≠ .NONE then currentDistraction
    else if !isTabFocused then .NO_FACE
    else .NONE
  let delta : ℚ :=
    match activeDistraction with
    | .PHONE => -1.5
    | .EATING => -0.5
    | .TALKING => -0.8
    | .EYES_CLOSED => -1.0
    | .NO_FACE => -2.0
    | .NONE => 0.1
  let newHeartRate : ℚ :=
    if !isRemoteActive then
      let approachSpeed : ℚ := 0.05
      let targetHR : ℚ :=
        if activeDistraction = .PHONE then 110
        else if activeDistraction = .TALKING then 95
        else if activeDistraction = .EYES_CLOSED then 55
        else 70
      currentHeartRate + (targetHR - currentHeartRate) * approachSpeed
    else currentHeartRate
  let appliedNoise : ℚ := noise * (if isRemoteActive then 0 else 3)
  ({ gazeStability := currentGazeStability
     heartRate := jsRound (newHeartRate + appliedNoise)
     distractionType := activeDistraction
     flowScoreDelta := delta }, newHeartRate)

/-- The pure tail of getBiometrics from presageService.ts (after the
heart-rate fetches): same arbitration chain, with Math.round(hr) || 70 on the
heart rate. -/
def getBiometricsPresage (forcedDistraction aiDetectedDistraction : DistractionType)
    (isUserActive isTabFocused : Bool) (currentHeartRate : ℚ)
    (glitch : Bool) : BiometricData :=
  let activeDistraction : DistractionType :=
    if forcedDistraction ≠ .NONE then forcedDistraction
    else if aiDetectedDistraction ≠ .NONE then aiDetectedDistraction
    else if !isTabFocused then .NO_FACE
    else .NONE
  let gazeStability : ℚ :=
    match activeDistraction with
    | .PHONE => 10
    | .EATING => 40
    | .TALKING => 30
    | .EYES_CLOSED => 0
    | .NO_FACE => 0
    | .NONE => (if isUserActive then (95 : ℚ) else 85) - (if glitch then 15 else 0)
  let delta : ℚ :=
    match activeDistraction with
    | .PHONE => -1.5
    | .EATING => -0.5
    | .TALKING => -0.8
    | .EYES_CLOSED => -1.0
    | .NO_FACE => -2.0
    | .NONE => 0.1
  let rounded := jsRound currentHeartRate
  { gazeStability := gazeStability
    heartRate := if rounded = 0 then 70 else rounded
    distractionType := activeDistraction
    flowScoreDelta := delta }

/-- The spec's explicit formulation of the arbitration policy: an ordered list
of signal sources consulted in priority order; the first non-neutral source
wins, and an unfocused tab contributes the absence label at lowest priority. -/
def priorityChainSpec (override remote : DistractionType) (isTabFocused : Bool) :
    DistractionType :=
  (([override, remote, if isTabFocused then .NONE else .NO_FACE].find?
      (fun d => d ≠ .NONE)).getD .NONE)

/-- C9: priority-chain arbitration.  All three biometric arbitration functions
return the distraction type given by the ordered priority policy
override > AI/remote-detected > tab focus > neutral, for every combination of
signals and every heart-rate/randomness state. -/
theorem priority_chain_arbitration (forced ai : DistractionType)
    (isUserActive isTabFocused isRemoteActive glitch : Bool)
    (currentHeartRate currentGazeStability noise : ℚ) :
    (simulateBiometricsMock forced ai isUserActive isTabFocused currentHeartRate
        glitch noise).1.distractionType = priorityChainSpec forced ai isTabFocused
      ∧ (simulateBiometricsOrchestrator forced ai isUserActive isTabFocused isRemoteActive
          currentHeartRate currentGazeStability noise).1.distractionType
          = priorityChainSpec forced ai isTabFocused
      ∧ (getBiometricsPresage forced ai isUserActive isTabFocused currentHeartRate
          glitch).distractionType = priorityChainSpec forced ai isTabFocused := by
  cases forced <;> cases ai <;> cases isTabFocused <;>
    exact ⟨rfl, rfl, rfl⟩

/-- VerificationResult from types.ts. -/
structure VerificationResult where
  verified : Bool
  score : ℚ
  comment : String
  deriving DecidableEq, Repr

/-- verifyWork from geminiService.ts as a function of the model-call outcome
(the whole try body: request, empty-response check and JSON parse collapse
into one Except).  Short or empty input short-circuits before the model is
consulted; every failure of the model call is caught and converted into the
fail-open default result. -/
def verifyWork (workContent : String)
    (modelCall : Except GeminiError VerificationResult) : VerificationResult :=
  if workContent = "" ∨ workContent.length < 10 then
    { verified := false
      score := 0
      comment := "Not enough work produced to verify." }
  else
    match modelCall with
    | .ok result => result
    | .error _ =>
      { verified := true
        score := 75
        comment := "Verification system bypassed due to interference. Points awarded by default." }

/-- handleVerify in the session component adds result.score * 2 to the self
player's flowScore. -/
def handleVerifyFlowScore (flowScore : ℚ) (result : VerificationResult) : ℚ :=
  flowScore + result.score * 2

/-- C10: verifyWork fails open.  It totalises every oracle outcome: an empty
or sub-10-character input yields verified = false with score 0 independently
of the model call (the model is never consulted), and a failing model call on
a long-enough input yields verified = true with the positive default score 75,
which handleVerify then adds (doubled) to the participant's flow score. -/
theorem verify_work_fails_open (workContent : String)
    (o1 o2 : Except GeminiError VerificationResult) (e : GeminiError) (flowScore : ℚ) :
    (workContent = "" ∨ workContent.length < 10 →
        verifyWork workContent o1 = verifyWork workContent o2
          ∧ (verifyWork workContent o1).verified = false
          ∧ (verifyWork workContent o1).score = 0)
      ∧ (¬(workContent = "" ∨ workContent.length < 10) →
          (verifyWork workContent (Except.error e)).verified = true
            ∧ (verifyWork workContent (Except.error e)).score = 75
            ∧ 0 < (verifyWork workContent (Except.error e)).score
            ∧ handleVerifyFlowScore flowScore (verifyWork workContent (Except.error e))
                = flowScore + 150) := by
  constructor
  · intro hshort
    unfold verifyWork
    rw [if_pos hshort, if_pos hshort]
    exact ⟨rfl, rfl, rfl⟩
  · intro hlong
    unfold verifyWork
    rw [if_neg hlong]
    refine ⟨rfl, rfl, by norm_num, ?_⟩
    unfold handleVerifyFlowScore
    norm_num

/-- Witness for C10: a three-character input is rejected with score 0 even
when the model would have scored it 99, and a long input under a timeout gets
the fail-open score 75, adding 150 to the flow score. -/
theorem verify_work_fails_open_witness :
    (verifyWork "abc" (Except.ok ⟨true, 99, "x"⟩)).score = 0
      ∧ (verifyWork "a sufficiently long work log" (Except.error .timeout)).score = 75
      ∧ handleVerifyFlowScore 1000
          (verifyWork "a sufficiently long work log" (Except.error .timeout)) = 1150 := by
  have h := verify_work_fails_open "abc" (Except.ok ⟨true, 99, "x"⟩)
    (Except.ok ⟨true, 99, "x"⟩) GeminiError.timeout 1000
  have h2 := verify_work_fails_open "a sufficiently long work log"
    (Except.error GeminiError.timeout) (Except.error GeminiError.timeout)
    GeminiError.timeout 1000
  refine ⟨(h.1 (by decide)).2.2, (h2.2 (by decide)).2.1, ?_⟩
  have := (h2.2 (by decide)).2.2.2
  simpa using this
